import Mathlib

/- Verification of the SetAssocCachesim set-associative cache simulator
(cache_sim.py), as a shallow embedding: classes become structures, methods
become state-passing functions, Python ints over the simulated domain become
Nat, and the constructor becomes an Except-valued function. -/

/-- One storage slot within a set (class CacheLine). -/
structure CacheLine where
  valid : Bool
  tag : Nat
  last_used : Nat
deriving DecidableEq

/-- The all-invalid line produced by the CacheLine constructor. -/
def invalidLine : CacheLine := ⟨false, 0, 0⟩

/-- Statistics tracker (class CacheStats). The hit-rate samples, floats in
Python, are modelled as rationals; the quantities involved are exact in
both representations. -/
structure CacheStats where
  total_accesses : Nat
  hits : Nat
  misses : Nat
  evictions : Nat
  hit_rate_history : List ℚ
deriving DecidableEq

/-- Fresh statistics, as CacheStats.__init__ builds them. -/
def CacheStats.new : CacheStats := ⟨0, 0, 0, 0, []⟩

/-- CacheStats.record_access: count the access, then append the running
hit-rate percentage to the history. -/
def CacheStats.record_access (s : CacheStats) (is_hit : Bool) : CacheStats :=
  let s1 : CacheStats :=
    { s with
      total_accesses := s.total_accesses + 1
      hits := if is_hit then s.hits + 1 else s.hits
      misses := if is_hit then s.misses else s.misses + 1 }
  let hit_rate : ℚ :=
    if s1.total_accesses > 0 then ((s1.hits : ℚ) / (s1.total_accesses : ℚ)) * 100 else 0
  { s1 with hit_rate_history := s1.hit_rate_history ++ [hit_rate] }

/-- CacheStats.record_eviction. -/
def CacheStats.record_eviction (s : CacheStats) : CacheStats :=
  { s with evictions := s.evictions + 1 }

/-- Fuel-driven helper computing the bit length of a natural number. -/
def bit_length_fuel : Nat → Nat → Nat
  | 0, _ => 0
  | fuel + 1, n => if n = 0 then 0 else bit_length_fuel fuel (n / 2) + 1

/-- Python int.bit_length for a nonnegative integer: the number of binary
digits, with bit_length 0 = 0. -/
def bit_length (n : Nat) : Nat := bit_length_fuel n n

/-- Python str.upper, character by character. -/
def upperStr (s : String) : String := ⟨s.data.map Char.toUpper⟩

/-- Replace the element at an index through a function, leaving the list
unchanged when the index is out of range (Python in-place element update). -/
def modifyIdx {α : Type} (l : List α) (i : Nat) (f : α → α) : List α :=
  match l, i with
  | [], _ => []
  | x :: xs, 0 => f x :: xs
  | x :: xs, i + 1 => x :: modifyIdx xs i f

/-- One fold step of Python min with a key function: keep the current best,
replace it only on a strictly smaller key. -/
def minStep (key : Nat → Nat) (best y : Nat) : Nat :=
  if key y < key best then y else best

/-- Python min(l, key=key) for a list, with a default for the empty list
(where Python would raise): a left fold from the first element, so the
first occurrence of the minimal key wins. -/
def pyMinBy (key : Nat → Nat) (l : List Nat) (d : Nat) : Nat :=
  match l with
  | [] => d
  | x :: xs => xs.foldl (minStep key) x

/-- The errors CacheSimulator.__init__ can raise: ZeroDivisionError from the
integer divisions computing the geometry, or ValueError from the explicit
validation. -/
inductive CacheError where
  | zeroDivision : CacheError
  | valueError : String → CacheError
deriving DecidableEq

/-- The simulator state (class CacheSimulator): geometry, policy, the global
access counter, the two-dimensional line array, per-set FIFO cursors, and
statistics. -/
structure CacheSimulator where
  cache_size : Nat
  block_size : Nat
  associativity : Nat
  replacement_policy : String
  num_blocks : Nat
  num_sets : Nat
  access_counter : Nat
  cache_array : List (List CacheLine)
  fifo_idx : List Nat
  stats : CacheStats
deriving DecidableEq

/-- CacheSimulator.__init__: compute the geometry, validate it, and allocate
the line array and FIFO cursors. The integer divisions run before the
explicit checks, so a zero divisor surfaces as ZeroDivisionError first,
exactly as in Python. No power-of-two condition is checked anywhere. -/
def CacheSimulator.new (cache_size block_size associativity : Nat)
    (replacement_policy : String) : Except CacheError CacheSimulator :=
  if block_size = 0 then .error .zeroDivision else
  let num_blocks := cache_size / block_size
  if associativity = 0 then .error .zeroDivision else
  let num_sets := num_blocks / associativity
  let rp := upperStr replacement_policy
  if cache_size = 0 then
    .error (.valueError "Cache size, block size, and associativity must be positive integers.")
  else if num_blocks * block_size ≠ cache_size then
    .error (.valueError "Cache size must be divisible by block size.")
  else if num_sets * associativity ≠ num_blocks then
    .error (.valueError "Number of blocks must be divisible by associativity.")
  else if rp ≠ "FIFO" ∧ rp ≠ "LRU" then
    .error (.valueError "Replacement policy must be FIFO or LRU.")
  else
    .ok
      { cache_size := cache_size
        block_size := block_size
        associativity := associativity
        replacement_policy := rp
        num_blocks := num_blocks
        num_sets := num_sets
        access_counter := 0
        cache_array := List.replicate num_sets (List.replicate associativity invalidLine)
        fifo_idx := List.replicate num_sets 0
        stats := CacheStats.new }

/-- The set index computed in access_cache: the address shifted by a
hard-coded four-bit block offset, masked with num_sets - 1. -/
def code_set_index (num_sets address : Nat) : Nat :=
  (address >>> 4) &&& (num_sets - 1)

/-- The tag computed in access_cache: the address shifted by
4 + (num_sets.bit_length() - 1). -/
def code_tag (num_sets address : Nat) : Nat :=
  address >>> (4 + (bit_length num_sets - 1))

/-- The LRU victim choice in access_cache:
min(range(associativity), key=lambda w: current_set[w].last_used). -/
def lruVictim (current_set : List CacheLine) (associativity : Nat) : Nat :=
  pyMinBy (fun w => (current_set.getD w invalidLine).last_used)
    (List.range associativity) 0

/-- The result of one access: the hit flag returned by access_cache together
with the set index, the way touched, and the evicted tag when an eviction
happened (data the method prints and records). -/
structure Outcome where
  hit : Bool
  set_index : Nat
  way : Nat
  evicted : Option Nat
deriving DecidableEq

/-- The set of the line array that an access to the given address selects. -/
def selectedSet (c : CacheSimulator) (address : Nat) : List CacheLine :=
  c.cache_array.getD (code_set_index c.num_sets address) []

/-- CacheSimulator.access_cache: bump the global counter, decompose the
address, scan the selected set for a valid line with the computed tag; on a
hit refresh that line and report a hit; on a miss pick the victim way by
policy (FIFO cursor, advanced modulo associativity, or LRU minimum of
last_used), record an eviction when the victim was valid, and overwrite the
victim line with the new tag and the current counter. -/
def CacheSimulator.access_cache (c : CacheSimulator) (address : Nat) :
    Outcome × CacheSimulator :=
  let counter := c.access_counter + 1
  let set_index := code_set_index c.num_sets address
  let tag_value := code_tag c.num_sets address
  let current_set := selectedSet c address
  match current_set.findIdx? (fun l => l.valid && l.tag == tag_value) with
  | some way =>
    (⟨true, set_index, way, none⟩,
      { c with
        access_counter := counter
        cache_array := modifyIdx c.cache_array set_index
          (fun s => modifyIdx s way (fun l => { l with last_used := counter }))
        stats := c.stats.record_access true })
  | none =>
    let replace_idx :=
      if c.replacement_policy = "FIFO" then c.fifo_idx.getD set_index 0
      else lruVictim current_set c.associativity
    let fifo1 :=
      if c.replacement_policy = "FIFO" then
        modifyIdx c.fifo_idx set_index (fun i => (i + 1) % c.associativity)
      else c.fifo_idx
    let victim := current_set.getD replace_idx invalidLine
    let stats1 := if victim.valid then c.stats.record_eviction else c.stats
    (⟨false, set_index, replace_idx, if victim.valid then some victim.tag else none⟩,
      { c with
        access_counter := counter
        cache_array := modifyIdx c.cache_array set_index
          (fun s => modifyIdx s replace_idx (fun _ => ⟨true, tag_value, counter⟩))
        fifo_idx := fifo1
        stats := stats1.record_access false })

/-- CacheSimulator.init_cache: reset every line to invalid with tag 0 and
last_used 0, and every FIFO cursor to 0, leaving everything else untouched. -/
def CacheSimulator.init_cache (c : CacheSimulator) : CacheSimulator :=
  { c with
    cache_array := c.cache_array.map (fun s => s.map (fun _ => invalidLine))
    fifo_idx := c.fifo_idx.map (fun _ => 0) }

instance {ε α : Type} [DecidableEq ε] [DecidableEq α] : DecidableEq (Except ε α) := fun x y =>
  match x, y with
  | .ok a, .ok b =>
    if h : a = b then .isTrue (by rw [h]) else .isFalse (by intro hc; injection hc; contradiction)
  | .error a, .error b =>
    if h : a = b then .isTrue (by rw [h]) else .isFalse (by intro hc; injection hc; contradiction)
  | .ok _, .error _ => .isFalse (by intro hc; injection hc)
  | .error _, .ok _ => .isFalse (by intro hc; injection hc)

/-- Feed a trace of addresses one at a time, collecting the outcomes and the
final state (the per-address loop in main). -/
def runTrace (c : CacheSimulator) : List Nat → List Outcome × CacheSimulator
  | [] => ([], c)
  | a :: rest =>
    let step := c.access_cache a
    let next := runTrace step.2 rest
    (step.1 :: next.1, next.2)

/-- The built-in default trace of main. -/
def defaultTrace : List Nat :=
  [0xA3C4, 0xA3D0, 0xA3C4, 0xA3D0, 0xB3C4, 0xC3C4, 0xA3C4, 0xD3C4]

/-- The end-to-end scenario of the spec: construct the default geometry with
LRU, reset, feed the default trace, and report the hit flags in order
together with the final eviction count. -/
def c1_result : Except CacheError (List Bool × Nat) :=
  (CacheSimulator.new 1024 16 2 "LRU").map (fun c =>
    let r := runTrace c.init_cache defaultTrace
    (r.1.map Outcome.hit, r.2.stats.evictions))

/-- Following the spec wording: num_sets must be a power of two. -/
def specPow2 (n : Nat) : Bool := n != 0 && (n &&& (n - 1)) == 0

/-- Following the spec wording: block_offset_bits = log2 block_size, and the
set index is the address shifted by block_offset_bits, masked with
num_sets - 1 (log2 rendered as bit_length minus one, which agrees with it on
every power of two). -/
def specSetIndex (block_size num_sets address : Nat) : Nat :=
  (address >>> (bit_length block_size - 1)) &&& (num_sets - 1)

/-- Following the spec wording: tag = address shifted right by
block_offset_bits + set_index_bits. -/
def specTag (block_size num_sets address : Nat) : Nat :=
  address >>> ((bit_length block_size - 1) + (bit_length num_sets - 1))

/-- A concretely constructed two-set, two-way LRU simulator (64-byte cache,
16-byte blocks), used to instantiate the general theorems. -/
def demoLRU : CacheSimulator :=
  ⟨64, 16, 2, "LRU", 4, 2, 0,
    List.replicate 2 (List.replicate 2 invalidLine), List.replicate 2 0, CacheStats.new⟩

/-- The same geometry under the FIFO policy. -/
def demoFIFO : CacheSimulator :=
  ⟨64, 16, 2, "FIFO", 4, 2, 0,
    List.replicate 2 (List.replicate 2 invalidLine), List.replicate 2 0, CacheStats.new⟩

/- The reachable-state invariant: positive geometry, consistent array and
cursor shapes, timestamps of valid lines at least one, timestamps of
invalid lines zero, cursors below the associativity. -/

/-- A line is well formed when validity and the last_used timestamp agree:
filled lines carry a positive timestamp, invalid lines carry zero. -/
def GoodLine (l : CacheLine) : Prop :=
  (l.valid = true → 1 ≤ l.last_used) ∧ (l.valid = false → l.last_used = 0)

/-- The state invariant every successfully constructed simulator satisfies
and every access preserves. -/
def CacheInv (c : CacheSimulator) : Prop :=
  1 ≤ c.num_sets ∧ 1 ≤ c.associativity ∧
  c.cache_array.length = c.num_sets ∧
  c.fifo_idx.length = c.num_sets ∧
  (∀ s ∈ c.cache_array, s.length = c.associativity) ∧
  (∀ s ∈ c.cache_array, ∀ l ∈ s, GoodLine l) ∧
  (∀ i ∈ c.fifo_idx, i < c.associativity)

/-- The victim way access_cache picks on a miss: the FIFO cursor of the
selected set under FIFO, the first way of minimal last_used under LRU. -/
def missVictim (c : CacheSimulator) (address : Nat) : Nat :=
  if c.replacement_policy = "FIFO" then
    c.fifo_idx.getD (code_set_index c.num_sets address) 0
  else lruVictim (selectedSet c address) c.associativity

/-- The statistics invariant behind C9 and C10: hits never exceed the
access total, and every recorded hit-rate sample lies between 0 and 100. -/
def statsInv (s : CacheStats) : Prop :=
  s.hits ≤ s.total_accesses ∧ ∀ q ∈ s.hit_rate_history, 0 ≤ q ∧ q ≤ 100

/-- The counter invariant behind C10. -/
def statsCounts (s : CacheStats) : Prop :=
  s.hits + s.misses = s.total_accesses ∧ s.evictions ≤ s.misses

/-- The victim ways of the misses that fall on one set, in trace order. -/
def missVictims (s : Nat) (os : List Outcome) : List Nat :=
  (os.filter (fun o => !o.hit && o.set_index == s)).map Outcome.way

/- Replay determinism: running a trace from the reset store differs from
running it from the fresh store only in that the global access counter
starts higher; the outcomes cannot see the difference because every
timestamp comparison is invariant under shifting all nonzero timestamps by
the same amount. -/

/-- Shift a nonzero timestamp by k, keeping zero (the invalid marker) fixed. -/
def shiftNat (k t : Nat) : Nat := if t = 0 then 0 else t + k

/-- Shift the timestamp of a line, keeping validity and tag. -/
def shiftLine (k : Nat) (l : CacheLine) : CacheLine :=
  { l with last_used := shiftNat k l.last_used }

/-- Two simulator states that agree on everything the outcomes depend on,
except that all timestamps and the counter of the first are shifted by k. -/
def Rshift (k : Nat) (c1 c2 : CacheSimulator) : Prop :=
  c1.num_sets = c2.num_sets ∧
  c1.associativity = c2.associativity ∧
  c1.replacement_policy = c2.replacement_policy ∧
  c1.access_counter = c2.access_counter + k ∧
  c1.cache_array = c2.cache_array.map (fun s => s.map (shiftLine k)) ∧
  c1.fifo_idx = c2.fifo_idx

theorem demoLRU_new : CacheSimulator.new 64 16 2 "LRU" = .ok demoLRU := by decide

theorem demoFIFO_new : CacheSimulator.new 64 16 2 "FIFO" = .ok demoFIFO := by decide

/-- C1, counterexample: on the default configuration (1024-byte cache,
16-byte blocks, two ways, LRU) and the default trace, the outcome sequence
and eviction count claimed by the spec, namely
miss miss hit hit miss miss hit miss with two evictions, are not what the
code produces. -/
theorem c1_default_trace_claim_false :
    c1_result ≠ Except.ok ([false, false, true, true, false, false, true, false], 2) := by
  decide

/-- C1, amended: on the default configuration and the default trace the code
yields miss miss hit hit miss miss miss miss, with a final eviction count of
three: the hit at access three lets access six evict the block of 0xA3C4
under LRU, so access seven misses, and each of the last three misses on the
then-full set 28 evicts a valid line. -/
theorem c1_default_trace_actual :
    c1_result = Except.ok ([false, false, true, true, false, false, false, false], 3) := by
  decide

/-- C2: construction does not fail when num_sets is not a power of two. With
cache_size 96, block_size 16 and associativity 2 every check in __init__
passes and a simulator with num_sets = 3 is returned, although the spec
demands a ConfigurationError for every non-power-of-two set count. -/
theorem c2_nonpow2_construction_succeeds :
    (CacheSimulator.new 96 16 2 "LRU").map (fun c => (c.num_sets, specPow2 c.num_sets)) =
      Except.ok (3, false) := by
  decide

/-- C3: the code does not decompose addresses with
block_offset_bits = log2 block_size; access_cache hard-codes a four-bit
block offset. With block_size 64 (num_sets 8) an access to address 16 is
placed in set (16 >>> 4) and 7 = 1, while the decomposition the spec states
puts it in set (16 >>> 6) and 7 = 0. -/
theorem c3_block_offset_hardcoded :
    (CacheSimulator.new 1024 64 2 "LRU").map
        (fun c => ((c.access_cache 16).1.set_index, specSetIndex c.block_size c.num_sets 16)) =
      Except.ok (1, 0) ∧ code_set_index 8 16 ≠ specSetIndex 64 8 16 := by
  constructor
  · decide
  · decide

/- Generic lemmas about the list helpers used by the embedding. -/

theorem length_modifyIdx {α : Type} (l : List α) (i : Nat) (f : α → α) :
    (modifyIdx l i f).length = l.length := by
  induction l generalizing i with
  | nil => rfl
  | cons x xs ih => cases i <;> simp [modifyIdx, ih]

theorem getD_modifyIdx_ne {α : Type} (l : List α) {i j : Nat} (f : α → α) (d : α)
    (h : j ≠ i) : (modifyIdx l i f).getD j d = l.getD j d := by
  induction l generalizing i j with
  | nil => rfl
  | cons x xs ih =>
    cases i with
    | zero =>
      cases j with
      | zero => exact absurd rfl h
      | succ j => simp [modifyIdx]
    | succ i =>
      cases j with
      | zero => simp [modifyIdx]
      | succ j =>
        simp only [modifyIdx, List.getD_cons_succ]
        exact ih (fun hc => h (by rw [hc]))

theorem getD_modifyIdx_self {α : Type} (l : List α) {i : Nat} (f : α → α) (d : α)
    (h : i < l.length) : (modifyIdx l i f).getD i d = f (l.getD i d) := by
  induction l generalizing i with
  | nil => simp at h
  | cons x xs ih =>
    cases i with
    | zero => simp [modifyIdx]
    | succ i =>
      simp only [modifyIdx, List.getD_cons_succ]
      exact ih (by simpa using h)

theorem mem_modifyIdx {α : Type} {l : List α} {i : Nat} {f : α → α} {x : α} (d : α)
    (h : x ∈ modifyIdx l i f) : x ∈ l ∨ (i < l.length ∧ x = f (l.getD i d)) := by
  induction l generalizing i with
  | nil => simp [modifyIdx] at h
  | cons a as ih =>
    cases i with
    | zero =>
      rcases (by simpa [modifyIdx] using h : x = f a ∨ x ∈ as) with h1 | h1
      · exact Or.inr ⟨by simp, by simpa using h1⟩
      · exact Or.inl (by simp [h1])
    | succ i =>
      rcases (by simpa [modifyIdx] using h : x = a ∨ x ∈ modifyIdx as i f) with h1 | h1
      · exact Or.inl (by simp [h1])
      · rcases ih h1 with h2 | ⟨hi, h2⟩
        · exact Or.inl (by simp [h2])
        · exact Or.inr ⟨by simpa using Nat.succ_lt_succ hi,
            by simpa [List.getD_cons_succ] using h2⟩

theorem getD_mem {α : Type} (l : List α) (i : Nat) (d : α) (h : i < l.length) :
    l.getD i d ∈ l := by
  rw [List.getD_eq_getElem _ _ h]
  exact List.getElem_mem h

theorem modifyIdx_map {α β : Type} (l : List α) (i : Nat) (f : α → β) (g : β → β)
    (g' : α → α) (hc : ∀ x, g (f x) = f (g' x)) :
    modifyIdx (l.map f) i g = (modifyIdx l i g').map f := by
  induction l generalizing i with
  | nil => rfl
  | cons x xs ih => cases i <;> simp [modifyIdx, hc, ih]

theorem getD_map {α β : Type} (f : α → β) (l : List α) (i : Nat) (d : α) :
    (l.map f).getD i (f d) = f (l.getD i d) := by
  rw [List.getD_eq_getElem?_getD, List.getD_eq_getElem?_getD, List.getElem?_map]
  cases l[i]? <;> rfl

theorem findIdx?_spec {α : Type} {p : α → Bool} {l : List α} {i : Nat} (d : α)
    (h : List.findIdx? p l = some i) : i < l.length ∧ p (l.getD i d) = true := by
  rcases List.findIdx?_eq_some_iff_findIdx_eq.mp h with ⟨hlen, hidx⟩
  subst hidx
  refine ⟨hlen, ?_⟩
  rw [List.getD_eq_getElem _ _ hlen]
  exact List.findIdx_getElem

/- The first-minimum characterization of the Python min over range. -/

theorem pyMinBy_range_eq_foldl (key : Nat → Nat) (n : Nat) (d : Nat) :
    pyMinBy key (List.range (n + 1)) d = (List.range (n + 1)).foldl (minStep key) 0 := by
  rw [List.range_succ_eq_map]
  simp only [pyMinBy, List.foldl_cons]
  have h0 : minStep key 0 0 = 0 := by simp [minStep]
  rw [h0]

theorem foldl_minStep_spec (key : Nat → Nat) (n : Nat) (hn : 0 < n) :
    ((List.range n).foldl (minStep key) 0 < n ∧
      (∀ w, w < n → key ((List.range n).foldl (minStep key) 0) ≤ key w)) ∧
      (∀ j, j < (List.range n).foldl (minStep key) 0 →
        key ((List.range n).foldl (minStep key) 0) < key j) := by
  induction n with
  | zero => exact absurd hn (by simp)
  | succ m ih =>
    cases Nat.eq_zero_or_pos m with
    | inl hm =>
      subst hm
      have h1 : (List.range 1).foldl (minStep key) 0 = 0 := by
        rw [List.range_succ]
        simp [minStep]
      refine ⟨⟨?_, ?_⟩, ?_⟩
      · rw [h1]; exact Nat.one_pos
      · intro w hw
        interval_cases w
        rw [h1]
      · intro j hj
        rw [h1] at hj
        exact absurd hj (Nat.not_lt_zero j)
    | inr hm =>
      rcases ih hm with ⟨⟨hlt, hmin⟩, hfirst⟩
      rw [List.range_succ, List.foldl_append]
      simp only [List.foldl_cons, List.foldl_nil]
      set v := (List.range m).foldl (minStep key) 0 with hv
      by_cases hkey : key m < key v
      · have hstep : minStep key v m = m := by simp [minStep, hkey]
        rw [hstep]
        refine ⟨⟨Nat.lt_succ_self m, ?_⟩, ?_⟩
        · intro w hw
          rcases Nat.lt_succ_iff_lt_or_eq.mp hw with hw1 | hw1
          · exact le_trans (le_of_lt hkey) (hmin w hw1)
          · rw [hw1]
        · intro j hj
          exact lt_of_lt_of_le hkey (hmin j hj)
      · have hstep : minStep key v m = v := by simp [minStep, hkey]
        rw [hstep]
        refine ⟨⟨Nat.lt_succ_of_lt hlt, ?_⟩, hfirst⟩
        intro w hw
        rcases Nat.lt_succ_iff_lt_or_eq.mp hw with hw1 | hw1
        · exact hmin w hw1
        · rw [hw1]; exact Nat.le_of_not_lt hkey

theorem pyMinBy_range_spec (key : Nat → Nat) (n : Nat) (hn : 0 < n) :
    (pyMinBy key (List.range n) 0 < n ∧
      (∀ w, w < n → key (pyMinBy key (List.range n) 0) ≤ key w)) ∧
      (∀ j, j < pyMinBy key (List.range n) 0 →
        key (pyMinBy key (List.range n) 0) < key j) := by
  cases n with
  | zero => exact absurd hn (by simp)
  | succ m => rw [pyMinBy_range_eq_foldl]; exact foldl_minStep_spec key (m + 1) hn

theorem pyMinBy_comp (g : Nat → Nat) (key : Nat → Nat)
    (hg : ∀ a b, g a < g b ↔ a < b) (l : List Nat) (d : Nat) :
    pyMinBy (fun w => g (key w)) l d = pyMinBy key l d := by
  cases l with
  | nil => rfl
  | cons x xs =>
    simp only [pyMinBy]
    induction xs generalizing x with
    | nil => rfl
    | cons y ys ih =>
      simp only [List.foldl_cons]
      have hstep : minStep (fun w => g (key w)) x y = minStep key x y := by
        simp only [minStep]
        rw [if_congr (hg (key y) (key x)) rfl rfl]
      rw [hstep]
      exact ih (minStep key x y)

theorem code_set_index_lt (ns a : Nat) (h : 1 ≤ ns) : code_set_index ns a < ns := by
  have hle : (a >>> 4) &&& (ns - 1) ≤ ns - 1 := Nat.and_le_right
  unfold code_set_index
  omega

theorem new_ok_facts {cs bs as : Nat} {pol : String} {c : CacheSimulator}
    (h : CacheSimulator.new cs bs as pol = .ok c) :
    c.cache_size = cs ∧ c.block_size = bs ∧ c.associativity = as ∧
      c.replacement_policy = upperStr pol ∧ c.access_counter = 0 ∧
      c.cache_array = List.replicate c.num_sets (List.replicate as invalidLine) ∧
      c.fifo_idx = List.replicate c.num_sets 0 ∧
      c.stats = CacheStats.new ∧ 1 ≤ c.num_sets ∧ 1 ≤ as := by
  simp only [CacheSimulator.new] at h
  split at h
  · simp at h
  split at h
  · simp at h
  split at h
  · simp at h
  split at h
  · simp at h
  split at h
  · simp at h
  split at h
  · simp at h
  rename_i hbs has hcs hdiv hdiv2 hpol
  rw [not_ne_iff] at hdiv hdiv2
  injection h with h
  subst h
  have h1 : cs / bs ≠ 0 := by
    intro h0
    rw [h0, Nat.zero_mul] at hdiv
    exact hcs hdiv.symm
  have h2 : cs / bs / as ≠ 0 := by
    intro h0
    rw [h0, Nat.zero_mul] at hdiv2
    exact h1 hdiv2.symm
  refine ⟨rfl, rfl, rfl, rfl, rfl, rfl, rfl, rfl, ?_, ?_⟩
  · simpa [Nat.one_le_iff_ne_zero] using h2
  · simpa [Nat.one_le_iff_ne_zero] using has

theorem new_ok_inv {cs bs as : Nat} {pol : String} {c : CacheSimulator}
    (h : CacheSimulator.new cs bs as pol = .ok c) : CacheInv c := by
  rcases new_ok_facts h with ⟨-, -, hassoc, -, -, harr, hfifo, -, hns, has⟩
  refine ⟨hns, by omega, ?_, ?_, ?_, ?_, ?_⟩
  · rw [harr, List.length_replicate]
  · rw [hfifo, List.length_replicate]
  · intro s hs
    rw [harr] at hs
    rw [List.eq_of_mem_replicate hs, List.length_replicate, hassoc]
  · intro s hs l hl
    rw [harr] at hs
    rw [List.eq_of_mem_replicate hs] at hl
    rw [List.eq_of_mem_replicate hl]
    exact ⟨by intro h0; simp [invalidLine] at h0, fun _ => rfl⟩
  · intro i hi
    rw [hfifo] at hi
    rw [List.eq_of_mem_replicate hi]
    omega

theorem access_fields (c : CacheSimulator) (a : Nat) :
    (c.access_cache a).2.cache_size = c.cache_size ∧
      (c.access_cache a).2.block_size = c.block_size ∧
      (c.access_cache a).2.associativity = c.associativity ∧
      (c.access_cache a).2.replacement_policy = c.replacement_policy ∧
      (c.access_cache a).2.num_blocks = c.num_blocks ∧
      (c.access_cache a).2.num_sets = c.num_sets ∧
      (c.access_cache a).2.access_counter = c.access_counter + 1 := by
  unfold CacheSimulator.access_cache
  cases hf : List.findIdx? (fun l => l.valid && l.tag == code_tag c.num_sets a)
      (selectedSet c a) <;>
    simp [hf]


theorem access_cache_hit {c : CacheSimulator} {address way : Nat}
    (h : (selectedSet c address).findIdx?
        (fun l => l.valid && l.tag == code_tag c.num_sets address) = some way) :
    c.access_cache address =
      (⟨true, code_set_index c.num_sets address, way, none⟩,
        { c with
          access_counter := c.access_counter + 1
          cache_array := modifyIdx c.cache_array (code_set_index c.num_sets address)
            (fun s => modifyIdx s way (fun l => { l with last_used := c.access_counter + 1 }))
          stats := c.stats.record_access true }) := by
  simp only [CacheSimulator.access_cache]
  rw [h]

theorem access_cache_miss {c : CacheSimulator} {address : Nat}
    (h : (selectedSet c address).findIdx?
        (fun l => l.valid && l.tag == code_tag c.num_sets address) = none) :
    c.access_cache address =
      (⟨false, code_set_index c.num_sets address, missVictim c address,
          if ((selectedSet c address).getD (missVictim c address) invalidLine).valid
          then some ((selectedSet c address).getD (missVictim c address) invalidLine).tag
          else none⟩,
        { c with
          access_counter := c.access_counter + 1
          cache_array := modifyIdx c.cache_array (code_set_index c.num_sets address)
            (fun s => modifyIdx s (missVictim c address)
              (fun _ => ⟨true, code_tag c.num_sets address, c.access_counter + 1⟩))
          fifo_idx :=
            if c.replacement_policy = "FIFO" then
              modifyIdx c.fifo_idx (code_set_index c.num_sets address)
                (fun i => (i + 1) % c.associativity)
            else c.fifo_idx
          stats :=
            (if ((selectedSet c address).getD (missVictim c address) invalidLine).valid
             then c.stats.record_eviction else c.stats).record_access false }) := by
  simp only [CacheSimulator.access_cache]
  rw [h]
  rfl

theorem access_inv {c : CacheSimulator} (a : Nat) (h : CacheInv c) :
    CacheInv (c.access_cache a).2 := by
  obtain ⟨hns, has, hlen, hflen, hslen, hgood, hcur⟩ := h
  cases hf : (selectedSet c a).findIdx?
      (fun l => l.valid && l.tag == code_tag c.num_sets a) with
  | some way =>
    rcases findIdx?_spec invalidLine hf with ⟨hway, hpred⟩
    have hvalid : ((selectedSet c a).getD way invalidLine).valid = true := by
      rw [Bool.and_eq_true] at hpred
      exact hpred.1
    rw [access_cache_hit hf]
    refine ⟨hns, has, ?_, hflen, ?_, ?_, hcur⟩
    · show (modifyIdx c.cache_array _ _).length = c.num_sets
      rw [length_modifyIdx, hlen]
    · intro s hs
      rcases mem_modifyIdx ([] : List CacheLine) hs with hs' | ⟨hi, rfl⟩
      · exact hslen s hs'
      · show (modifyIdx _ _ _).length = c.associativity
        rw [length_modifyIdx]
        exact hslen _ (getD_mem _ _ _ hi)
    · intro s hs l hl
      rcases mem_modifyIdx ([] : List CacheLine) hs with hs' | ⟨hi, rfl⟩
      · exact hgood s hs' l hl
      · rcases mem_modifyIdx invalidLine hl with hl' | ⟨hw, rfl⟩
        · exact hgood _ (getD_mem _ _ _ hi) _ hl'
        · constructor
          · intro _
            show 1 ≤ c.access_counter + 1
            omega
          · intro hc
            have hc' : ((selectedSet c a).getD way invalidLine).valid = false := hc
            rw [hvalid] at hc'
            cases hc'
  | none =>
    rw [access_cache_miss hf]
    refine ⟨hns, has, ?_, ?_, ?_, ?_, ?_⟩
    · show (modifyIdx c.cache_array _ _).length = c.num_sets
      rw [length_modifyIdx, hlen]
    · show (if _ then modifyIdx c.fifo_idx _ _ else c.fifo_idx).length = c.num_sets
      split
      · rw [length_modifyIdx, hflen]
      · exact hflen
    · intro s hs
      rcases mem_modifyIdx ([] : List CacheLine) hs with hs' | ⟨hi, rfl⟩
      · exact hslen s hs'
      · show (modifyIdx _ _ _).length = c.associativity
        rw [length_modifyIdx]
        exact hslen _ (getD_mem _ _ _ hi)
    · intro s hs l hl
      rcases mem_modifyIdx ([] : List CacheLine) hs with hs' | ⟨hi, rfl⟩
      · exact hgood s hs' l hl
      · rcases mem_modifyIdx invalidLine hl with hl' | ⟨hw, rfl⟩
        · exact hgood _ (getD_mem _ _ _ hi) _ hl'
        · constructor
          · intro _
            show 1 ≤ c.access_counter + 1
            omega
          · intro hc
            exact Bool.noConfusion (show true = false from hc)
    · intro i hi
      revert hi
      show i ∈ (if _ then modifyIdx c.fifo_idx _ _ else c.fifo_idx) → i < c.associativity
      split
      · intro hi
        rcases mem_modifyIdx 0 hi with hi' | ⟨hj, rfl⟩
        · exact hcur i hi'
        · exact Nat.mod_lt _ (by omega)
      · intro hi
        exact hcur i hi

theorem runTrace_cons (c : CacheSimulator) (a : Nat) (rest : List Nat) :
    runTrace c (a :: rest) =
      ((c.access_cache a).1 :: (runTrace (c.access_cache a).2 rest).1,
        (runTrace (c.access_cache a).2 rest).2) := rfl

theorem runTrace_inv {c : CacheSimulator} (trace : List Nat) (h : CacheInv c) :
    CacheInv (runTrace c trace).2 := by
  induction trace generalizing c with
  | nil => exact h
  | cons a rest ih => exact ih (access_inv a h)

theorem runTrace_fields (c : CacheSimulator) (trace : List Nat) :
    (runTrace c trace).2.cache_size = c.cache_size ∧
      (runTrace c trace).2.block_size = c.block_size ∧
      (runTrace c trace).2.associativity = c.associativity ∧
      (runTrace c trace).2.replacement_policy = c.replacement_policy ∧
      (runTrace c trace).2.num_blocks = c.num_blocks ∧
      (runTrace c trace).2.num_sets = c.num_sets := by
  induction trace generalizing c with
  | nil => exact ⟨rfl, rfl, rfl, rfl, rfl, rfl⟩
  | cons a rest ih =>
    rcases ih (c.access_cache a).2 with ⟨i1, i2, i3, i4, i5, i6⟩
    rcases access_fields c a with ⟨a1, a2, a3, a4, a5, a6, -⟩
    rw [runTrace_cons]
    exact ⟨i1.trans a1, i2.trans a2, i3.trans a3, i4.trans a4, i5.trans a5, i6.trans a6⟩

/-- C7: init_cache resets every line of every set to invalid with tag 0 and
last_used 0 and every per-set FIFO cursor to 0, keeps both container shapes,
and changes nothing else: the global access counter, the statistics, and
every geometry field retain their values. -/
theorem c7_reset_frame (c : CacheSimulator) :
    (∀ s ∈ c.init_cache.cache_array, ∀ l ∈ s,
        l.valid = false ∧ l.tag = 0 ∧ l.last_used = 0) ∧
      (∀ i ∈ c.init_cache.fifo_idx, i = 0) ∧
      c.init_cache.cache_array.length = c.cache_array.length ∧
      c.init_cache.fifo_idx.length = c.fifo_idx.length ∧
      c.init_cache.access_counter = c.access_counter ∧
      c.init_cache.stats = c.stats ∧
      c.init_cache.cache_size = c.cache_size ∧
      c.init_cache.block_size = c.block_size ∧
      c.init_cache.associativity = c.associativity ∧
      c.init_cache.replacement_policy = c.replacement_policy ∧
      c.init_cache.num_blocks = c.num_blocks ∧
      c.init_cache.num_sets = c.num_sets := by
  refine ⟨?_, ?_, ?_, ?_, rfl, rfl, rfl, rfl, rfl, rfl, rfl, rfl⟩
  · intro s hs l hl
    simp only [CacheSimulator.init_cache, List.mem_map] at hs
    obtain ⟨s0, -, rfl⟩ := hs
    simp only [List.mem_map] at hl
    obtain ⟨l0, -, rfl⟩ := hl
    exact ⟨rfl, rfl, rfl⟩
  · intro i hi
    simp only [CacheSimulator.init_cache, List.mem_map] at hi
    obtain ⟨j, -, rfl⟩ := hi
    rfl
  · simp [CacheSimulator.init_cache]
  · simp [CacheSimulator.init_cache]

/-- C8: after any finite sequence of accesses on a freshly constructed
cache, every set of the line array contains at most associativity valid
lines: accesses only overwrite lines in place, so each set keeps its
allocated length, and the count of valid lines is bounded by it. -/
theorem c8_capacity_invariant (cs bs as : Nat) (pol : String) (c0 : CacheSimulator)
    (trace : List Nat) (hnew : CacheSimulator.new cs bs as pol = Except.ok c0) :
    ∀ s ∈ (runTrace c0 trace).2.cache_array,
      s.countP (fun l => l.valid) ≤ c0.associativity := by
  intro s hs
  obtain ⟨-, -, -, -, hslen, -, -⟩ := runTrace_inv trace (new_ok_inv hnew)
  have hfields := (runTrace_fields c0 trace).2.2.1
  calc s.countP (fun l => l.valid) ≤ s.length := List.countP_le_length _
    _ = (runTrace c0 trace).2.associativity := hslen s hs
    _ = c0.associativity := hfields

theorem c8_capacity_witness :
    ((runTrace demoLRU [0, 16, 32]).2.cache_array.getD 0 []).countP (fun l => l.valid) ≤
      demoLRU.associativity :=
  c8_capacity_invariant 64 16 2 "LRU" demoLRU [0, 16, 32] demoLRU_new _
    (getD_mem _ _ _ (by decide))

theorem ratio_bound (h t : Nat) (ht : 0 < t) (hle : h ≤ t) :
    0 ≤ ((h : ℚ) / (t : ℚ)) * 100 ∧ ((h : ℚ) / (t : ℚ)) * 100 ≤ 100 := by
  have ht' : (0 : ℚ) < t := by exact_mod_cast ht
  constructor
  · positivity
  · have hd : (h : ℚ) / t ≤ 1 := by
      rw [div_le_one ht']
      exact_mod_cast hle
    calc (h : ℚ) / t * 100 ≤ 1 * 100 := by
          apply mul_le_mul_of_nonneg_right hd
          norm_num
      _ = 100 := one_mul 100

theorem statsInv_record_access (s : CacheStats) (b : Bool) (h : statsInv s) :
    statsInv (s.record_access b) := by
  obtain ⟨h1, h2⟩ := h
  constructor
  · show (if b then s.hits + 1 else s.hits) ≤ s.total_accesses + 1
    split <;> omega
  · intro q hq
    rcases List.mem_append.mp hq with hq' | hq'
    · exact h2 q hq'
    · have hq2 := List.mem_singleton.mp hq'
      subst hq2
      show 0 ≤ (if s.total_accesses + 1 > 0
          then (((if b then s.hits + 1 else s.hits) : Nat) : ℚ) /
            (((s.total_accesses + 1 : Nat)) : ℚ) * 100 else 0) ∧ _
      rw [if_pos (by omega)]
      exact ratio_bound _ _ (by omega) (by split <;> omega)

theorem statsInv_record_eviction (s : CacheStats) (h : statsInv s) :
    statsInv s.record_eviction := h

theorem access_statsInv {c : CacheSimulator} (a : Nat) (h : statsInv c.stats) :
    statsInv (c.access_cache a).2.stats := by
  cases hf : (selectedSet c a).findIdx?
      (fun l => l.valid && l.tag == code_tag c.num_sets a) with
  | some way =>
    rw [access_cache_hit hf]
    exact statsInv_record_access _ _ h
  | none =>
    rw [access_cache_miss hf]
    apply statsInv_record_access
    split
    · exact statsInv_record_eviction _ h
    · exact h

theorem runTrace_statsInv {c : CacheSimulator} (trace : List Nat)
    (h : statsInv c.stats) : statsInv (runTrace c trace).2.stats := by
  induction trace generalizing c with
  | nil => exact h
  | cons a rest ih => exact ih (access_statsInv a h)

/-- C9: every element ever appended to the hit-rate sample sequence of a
freshly constructed cache lies in the closed interval from 0 to 100: each
sample equals 100 times hits over total_accesses at recording time, and
hits never exceed total_accesses. -/
theorem c9_hit_rate_in_range (cs bs as : Nat) (pol : String) (c0 : CacheSimulator)
    (trace : List Nat) (hnew : CacheSimulator.new cs bs as pol = Except.ok c0) :
    ∀ q ∈ (runTrace c0 trace).2.stats.hit_rate_history, 0 ≤ q ∧ q ≤ 100 := by
  have hstats : c0.stats = CacheStats.new := (new_ok_facts hnew).2.2.2.2.2.2.2.1
  have h0 : statsInv c0.stats := by
    rw [hstats]
    exact ⟨Nat.le_refl 0, by intro q hq; cases hq⟩
  exact (runTrace_statsInv trace h0).2

theorem c9_hit_rate_witness :
    0 ≤ (runTrace demoLRU [0]).2.stats.hit_rate_history.getD 0 0 ∧
      (runTrace demoLRU [0]).2.stats.hit_rate_history.getD 0 0 ≤ 100 := by
  have hlen : 0 < (runTrace demoLRU [0]).2.stats.hit_rate_history.length := by decide
  exact c9_hit_rate_in_range 64 16 2 "LRU" demoLRU [0] demoLRU_new _
    (getD_mem _ _ _ hlen)

theorem statsCounts_record_access (s : CacheStats) (b : Bool) (h : statsCounts s) :
    statsCounts (s.record_access b) := by
  obtain ⟨h1, h2⟩ := h
  constructor
  · show (if b then s.hits + 1 else s.hits) + (if b then s.misses else s.misses + 1) =
      s.total_accesses + 1
    split <;> omega
  · show s.evictions ≤ (if b then s.misses else s.misses + 1)
    split <;> omega

theorem access_statsCounts {c : CacheSimulator} (a : Nat) (h : statsCounts c.stats) :
    statsCounts (c.access_cache a).2.stats := by
  cases hf : (selectedSet c a).findIdx?
      (fun l => l.valid && l.tag == code_tag c.num_sets a) with
  | some way =>
    rw [access_cache_hit hf]
    exact statsCounts_record_access _ _ h
  | none =>
    rw [access_cache_miss hf]
    obtain ⟨h1, h2⟩ := h
    by_cases hv : ((selectedSet c a).getD (missVictim c a) invalidLine).valid = true
    · show statsCounts ((if ((selectedSet c a).getD (missVictim c a) invalidLine).valid
        then c.stats.record_eviction else c.stats).record_access false)
      rw [if_pos hv]
      constructor
      · show c.stats.hits + (c.stats.misses + 1) = c.stats.total_accesses + 1
        omega
      · show c.stats.evictions + 1 ≤ c.stats.misses + 1
        omega
    · show statsCounts ((if ((selectedSet c a).getD (missVictim c a) invalidLine).valid
        then c.stats.record_eviction else c.stats).record_access false)
      rw [if_neg hv]
      constructor
      · show c.stats.hits + (c.stats.misses + 1) = c.stats.total_accesses + 1
        omega
      · show c.stats.evictions ≤ c.stats.misses + 1
        omega

theorem runTrace_statsCounts {c : CacheSimulator} (trace : List Nat)
    (h : statsCounts c.stats) : statsCounts (runTrace c trace).2.stats := by
  induction trace generalizing c with
  | nil => exact h
  | cons a rest ih => exact ih (access_statsCounts a h)

/-- C10: after any finite sequence of accesses on a freshly constructed
cache, hits plus misses equals total_accesses, and evictions never exceed
misses: record_eviction is invoked only in the miss branch when the victim
line was valid, and every access records exactly one hit or one miss. -/
theorem c10_stats_consistent (cs bs as : Nat) (pol : String) (c0 : CacheSimulator)
    (trace : List Nat) (hnew : CacheSimulator.new cs bs as pol = Except.ok c0) :
    (runTrace c0 trace).2.stats.hits + (runTrace c0 trace).2.stats.misses =
        (runTrace c0 trace).2.stats.total_accesses ∧
      (runTrace c0 trace).2.stats.evictions ≤ (runTrace c0 trace).2.stats.misses := by
  have hstats : c0.stats = CacheStats.new := (new_ok_facts hnew).2.2.2.2.2.2.2.1
  have h0 : statsCounts c0.stats := by
    rw [hstats]
    exact ⟨rfl, Nat.le_refl 0⟩
  exact runTrace_statsCounts trace h0

theorem c10_stats_witness :
    (runTrace demoFIFO defaultTrace).2.stats.hits +
          (runTrace demoFIFO defaultTrace).2.stats.misses =
        (runTrace demoFIFO defaultTrace).2.stats.total_accesses ∧
      (runTrace demoFIFO defaultTrace).2.stats.evictions ≤
        (runTrace demoFIFO defaultTrace).2.stats.misses :=
  c10_stats_consistent 64 16 2 "FIFO" demoFIFO defaultTrace demoFIFO_new

theorem lruVictim_spec (cset : List CacheLine) (n : Nat) (hn : 0 < n) :
    (lruVictim cset n < n ∧
      (∀ w, w < n → (cset.getD (lruVictim cset n) invalidLine).last_used ≤
        (cset.getD w invalidLine).last_used)) ∧
      (∀ j, j < lruVictim cset n →
        (cset.getD (lruVictim cset n) invalidLine).last_used <
          (cset.getD j invalidLine).last_used) :=
  pyMinBy_range_spec (fun w => (cset.getD w invalidLine).last_used) n hn

/-- C4: in every state reachable from a freshly constructed cache, the LRU
victim of the set an address selects is a way below the associativity whose
last_used is minimal over the set, ties broken by the lowest way index; if
the set still holds an invalid line the victim is such a line (invalid
lines carry last_used 0 while valid lines carry at least 1); and on a miss
under the LRU policy access_cache places the new block in exactly this way. -/
theorem c4_lru_victim_least_recently_used (cs bs as : Nat) (pol : String)
    (c0 : CacheSimulator) (trace : List Nat) (a : Nat) (c : CacheSimulator)
    (cset : List CacheLine) (v : Nat)
    (hnew : CacheSimulator.new cs bs as pol = Except.ok c0)
    (hc : c = (runTrace c0 trace).2)
    (hcset : cset = selectedSet c a)
    (hv : v = lruVictim cset c.associativity) :
    (v < c.associativity ∧
      (∀ w, w < c.associativity →
        (cset.getD v invalidLine).last_used ≤ (cset.getD w invalidLine).last_used) ∧
      (∀ w, w < c.associativity →
        (cset.getD w invalidLine).last_used = (cset.getD v invalidLine).last_used →
        v ≤ w)) ∧
    ((∃ w, w < c.associativity ∧ (cset.getD w invalidLine).valid = false) →
      (cset.getD v invalidLine).valid = false) ∧
    (c.replacement_policy = "LRU" → (c.access_cache a).1.hit = false →
      (c.access_cache a).1.way = v) := by
  subst hv
  subst hcset
  subst hc
  obtain ⟨hns, has, hlen, hflen, hslen, hgood, hcur⟩ := runTrace_inv trace (new_ok_inv hnew)
  obtain ⟨⟨hvlt, hmin⟩, hfirst⟩ :=
    lruVictim_spec (selectedSet (runTrace c0 trace).2 a) (runTrace c0 trace).2.associativity has
  have hsetmem : selectedSet (runTrace c0 trace).2 a ∈ (runTrace c0 trace).2.cache_array := by
    have hsi : code_set_index (runTrace c0 trace).2.num_sets a <
        (runTrace c0 trace).2.cache_array.length := by
      rw [hlen]
      exact code_set_index_lt _ _ hns
    exact getD_mem _ _ _ hsi
  have hsetlen : (selectedSet (runTrace c0 trace).2 a).length =
      (runTrace c0 trace).2.associativity := hslen _ hsetmem
  refine ⟨⟨hvlt, hmin, ?_⟩, ?_, ?_⟩
  · intro w hw heq
    by_contra hc2
    push_neg at hc2
    have h3 := hfirst w hc2
    omega
  · rintro ⟨w0, hw0, hw0inv⟩
    have hgw0 : GoodLine ((selectedSet (runTrace c0 trace).2 a).getD w0 invalidLine) :=
      hgood _ hsetmem _ (getD_mem _ _ _ (by omega))
    have hw0zero := hgw0.2 hw0inv
    have hvle := hmin w0 hw0
    cases hb : ((selectedSet (runTrace c0 trace).2 a).getD
        (lruVictim (selectedSet (runTrace c0 trace).2 a)
          (runTrace c0 trace).2.associativity) invalidLine).valid with
    | false => rfl
    | true =>
      have hgv : GoodLine ((selectedSet (runTrace c0 trace).2 a).getD
          (lruVictim (selectedSet (runTrace c0 trace).2 a)
            (runTrace c0 trace).2.associativity) invalidLine) :=
        hgood _ hsetmem _ (getD_mem _ _ _ (by omega))
      have h4 := hgv.1 hb
      omega
  · intro hpol hmiss
    cases hf : (selectedSet (runTrace c0 trace).2 a).findIdx?
        (fun l => l.valid && l.tag == code_tag (runTrace c0 trace).2.num_sets a) with
    | some way =>
      rw [access_cache_hit hf] at hmiss
      exact Bool.noConfusion (show true = false from hmiss)
    | none =>
      rw [access_cache_miss hf]
      show missVictim (runTrace c0 trace).2 a = _
      unfold missVictim
      rw [hpol]
      rw [if_neg (by decide)]

theorem c4_lru_witness :
    (demoLRU.access_cache 0).1.way =
        lruVictim (selectedSet demoLRU 0) demoLRU.associativity ∧
      ((selectedSet demoLRU 0).getD
          (lruVictim (selectedSet demoLRU 0) demoLRU.associativity) invalidLine).valid =
        false := by
  have h := c4_lru_victim_least_recently_used 64 16 2 "LRU" demoLRU [] 0 demoLRU
    (selectedSet demoLRU 0) (lruVictim (selectedSet demoLRU 0) demoLRU.associativity)
    demoLRU_new rfl rfl rfl
  exact ⟨h.2.2 rfl (by decide), h.2.1 ⟨0, by decide, by decide⟩⟩

theorem fifo_missVictims {c : CacheSimulator} (trace : List Nat) (s : Nat)
    (hinv : CacheInv c) (hpol : c.replacement_policy = "FIFO") :
    missVictims s (runTrace c trace).1 =
      (List.range (missVictims s (runTrace c trace).1).length).map
        (fun k => (c.fifo_idx.getD s 0 + k) % c.associativity) := by
  induction trace generalizing c with
  | nil => rfl
  | cons a rest ih =>
    obtain ⟨hns, has, hlen, hflen, hslen, hgood, hcur⟩ := hinv
    have hinv2 : CacheInv (c.access_cache a).2 :=
      access_inv a ⟨hns, has, hlen, hflen, hslen, hgood, hcur⟩
    have hpol2 : (c.access_cache a).2.replacement_policy = "FIFO" :=
      ((access_fields c a).2.2.2.1).trans hpol
    have hassoc : (c.access_cache a).2.associativity = c.associativity :=
      (access_fields c a).2.2.1
    have IH := ih hinv2 hpol2
    rw [runTrace_cons]
    cases hf : (selectedSet c a).findIdx?
        (fun l => l.valid && l.tag == code_tag c.num_sets a) with
    | some way =>
      have hohit : (c.access_cache a).1.hit = true := by rw [access_cache_hit hf]
      have hfifoeq : (c.access_cache a).2.fifo_idx = c.fifo_idx := by
        rw [access_cache_hit hf]
      have hmv : missVictims s
          ((c.access_cache a).1 :: (runTrace (c.access_cache a).2 rest).1) =
          missVictims s (runTrace (c.access_cache a).2 rest).1 := by
        simp [missVictims, List.filter_cons, hohit]
      rw [hmv, IH]
      simp only [hfifoeq, hassoc, List.length_map, List.length_range]
    | none =>
      have hohit : (c.access_cache a).1.hit = false := by rw [access_cache_miss hf]
      have hosid : (c.access_cache a).1.set_index = code_set_index c.num_sets a := by
        rw [access_cache_miss hf]
      have howay : (c.access_cache a).1.way =
          c.fifo_idx.getD (code_set_index c.num_sets a) 0 := by
        rw [access_cache_miss hf]
        show missVictim c a = _
        unfold missVictim
        rw [if_pos hpol]
      have hfifoeq : (c.access_cache a).2.fifo_idx =
          modifyIdx c.fifo_idx (code_set_index c.num_sets a)
            (fun i => (i + 1) % c.associativity) := by
        rw [access_cache_miss hf]
        show (if c.replacement_policy = "FIFO" then _ else _) = _
        rw [if_pos hpol]
      by_cases hss : code_set_index c.num_sets a = s
      · have hmv : missVictims s
            ((c.access_cache a).1 :: (runTrace (c.access_cache a).2 rest).1) =
            (c.access_cache a).1.way ::
              missVictims s (runTrace (c.access_cache a).2 rest).1 := by
          simp [missVictims, List.filter_cons, hohit, hosid, hss]
        have hslt : s < c.fifo_idx.length := by
          rw [hflen, ← hss]
          exact code_set_index_lt _ _ hns
        have hcget : (c.access_cache a).2.fifo_idx.getD s 0 =
            (c.fifo_idx.getD s 0 + 1) % c.associativity := by
          rw [hfifoeq, hss]
          exact getD_modifyIdx_self _ _ _ hslt
        have hjlt : c.fifo_idx.getD s 0 < c.associativity :=
          hcur _ (getD_mem _ _ _ hslt)
        rw [hmv, howay, IH]
        simp only [hcget, hassoc, List.length_cons, List.length_map, List.length_range]
        rw [List.range_succ_eq_map, List.map_cons]
        congr 1
        · rw [Nat.add_zero, Nat.mod_eq_of_lt hjlt, hss]
        · rw [List.map_map]
          apply List.map_congr_left
          intro k hk
          show ((c.fifo_idx.getD s 0 + 1) % c.associativity + k) % c.associativity =
            (c.fifo_idx.getD s 0 + (k + 1)) % c.associativity
          rw [Nat.mod_add_mod]
          congr 1
          omega
      · have hmv : missVictims s
            ((c.access_cache a).1 :: (runTrace (c.access_cache a).2 rest).1) =
            missVictims s (runTrace (c.access_cache a).2 rest).1 := by
          simp [missVictims, List.filter_cons, hosid, hss]
        have hcget : (c.access_cache a).2.fifo_idx.getD s 0 = c.fifo_idx.getD s 0 := by
          rw [hfifoeq]
          exact getD_modifyIdx_ne _ _ _ (fun hc2 => hss hc2.symm)
        rw [hmv, IH]
        simp only [hcget, hassoc, List.length_map, List.length_range]

/-- C5: under the FIFO policy, for every set, the victim ways chosen on the
successive misses that fall on that set are 0, 1, up to associativity minus
one and around again: the k-th such miss evicts way k modulo associativity,
whatever hits are interleaved, because the per-set cursor starts at zero,
advances by one modulo associativity on every miss to the set, and is
untouched by hits and by misses to other sets. -/
theorem c5_fifo_cursor_cycles (cs bs as : Nat) (c0 : CacheSimulator)
    (trace : List Nat) (s : Nat)
    (hnew : CacheSimulator.new cs bs as "FIFO" = Except.ok c0) :
    missVictims s (runTrace c0 trace).1 =
      (List.range (missVictims s (runTrace c0 trace).1).length).map
        (fun k => k % c0.associativity) := by
  have hinv := new_ok_inv hnew
  rcases new_ok_facts hnew with ⟨-, -, -, hpol, -, -, hfifo, -, -, -⟩
  have hpol2 : c0.replacement_policy = "FIFO" := by rw [hpol]; rfl
  have h := fifo_missVictims trace s hinv hpol2
  have hz : c0.fifo_idx.getD s 0 = 0 := by
    rw [hfifo]
    rcases Nat.lt_or_ge s c0.num_sets with hs | hs
    · rw [List.getD_eq_getElem _ _ (by simpa using hs)]
      simp
    · rw [List.getD_eq_getElem?_getD, List.getElem?_eq_none (by simpa using hs)]
      rfl
  conv_lhs => rw [h]
  simp only [hz, Nat.zero_add]

theorem c5_fifo_witness :
    missVictims 0 (runTrace demoFIFO defaultTrace).1 =
      (List.range (missVictims 0 (runTrace demoFIFO defaultTrace).1).length).map
        (fun k => k % demoFIFO.associativity) :=
  c5_fifo_cursor_cycles 64 16 2 demoFIFO defaultTrace 0 demoFIFO_new

theorem shiftNat_lt_iff (k a b : Nat) : shiftNat k a < shiftNat k b ↔ a < b := by
  unfold shiftNat
  split <;> split <;> omega

theorem shiftLine_valid (k : Nat) (l : CacheLine) : (shiftLine k l).valid = l.valid := rfl

theorem shiftLine_tag (k : Nat) (l : CacheLine) : (shiftLine k l).tag = l.tag := rfl

theorem getD_map_shiftLine (k : Nat) (l : List CacheLine) (i : Nat) :
    (l.map (shiftLine k)).getD i invalidLine = shiftLine k (l.getD i invalidLine) :=
  getD_map (shiftLine k) l i invalidLine

theorem lruVictim_shift (k : Nat) (l : List CacheLine) (n : Nat) :
    lruVictim (l.map (shiftLine k)) n = lruVictim l n := by
  unfold lruVictim
  have hkey : (fun w => ((l.map (shiftLine k)).getD w invalidLine).last_used) =
      fun w => shiftNat k ((l.getD w invalidLine).last_used) := by
    funext w
    rw [getD_map_shiftLine]
    rfl
  rw [hkey]
  exact pyMinBy_comp (shiftNat k) (fun w => (l.getD w invalidLine).last_used)
    (shiftNat_lt_iff k) (List.range n) 0

theorem selectedSet_shift {k : Nat} {c1 c2 : CacheSimulator}
    (hns : c1.num_sets = c2.num_sets)
    (harr : c1.cache_array = c2.cache_array.map (fun s => s.map (shiftLine k)))
    (a : Nat) : selectedSet c1 a = (selectedSet c2 a).map (shiftLine k) := by
  unfold selectedSet
  rw [hns, harr]
  exact getD_map (fun s => s.map (shiftLine k)) c2.cache_array
    (code_set_index c2.num_sets a) []

theorem findIdx?_shift (k : Nat) (tg : Nat) (l : List CacheLine) :
    List.findIdx? (fun x => x.valid && x.tag == tg) (l.map (shiftLine k)) =
      List.findIdx? (fun x => x.valid && x.tag == tg) l := by
  rw [List.findIdx?_map]
  rfl

theorem shiftLine_set_lu (k cnt : Nat) (x : CacheLine) :
    ({ shiftLine k x with last_used := cnt + k + 1 } : CacheLine) =
      shiftLine k { x with last_used := cnt + 1 } := by
  simp only [shiftLine, shiftNat]
  rw [if_neg (Nat.succ_ne_zero cnt)]
  show CacheLine.mk x.valid x.tag (cnt + k + 1) = CacheLine.mk x.valid x.tag (cnt + 1 + k)
  congr 1
  omega

theorem shiftLine_new_line (k cnt tg : Nat) :
    (⟨true, tg, cnt + k + 1⟩ : CacheLine) = shiftLine k ⟨true, tg, cnt + 1⟩ := by
  simp only [shiftLine, shiftNat]
  rw [if_neg (Nat.succ_ne_zero cnt)]
  show CacheLine.mk true tg (cnt + k + 1) = CacheLine.mk true tg (cnt + 1 + k)
  congr 1
  omega

theorem access_shift {k : Nat} {c1 c2 : CacheSimulator} (a : Nat) (h : Rshift k c1 c2) :
    (c1.access_cache a).1 = (c2.access_cache a).1 ∧
      Rshift k (c1.access_cache a).2 (c2.access_cache a).2 := by
  obtain ⟨hns, hassoc, hpol, hcnt, harr, hfifo⟩ := h
  have hsel := selectedSet_shift hns harr a
  have htag : code_tag c1.num_sets a = code_tag c2.num_sets a := by rw [hns]
  have hsidx : code_set_index c1.num_sets a = code_set_index c2.num_sets a := by rw [hns]
  have hfind : (selectedSet c1 a).findIdx?
      (fun l => l.valid && l.tag == code_tag c1.num_sets a) =
      (selectedSet c2 a).findIdx?
        (fun l => l.valid && l.tag == code_tag c2.num_sets a) := by
    rw [hsel, htag, findIdx?_shift]
  have hmv : missVictim c1 a = missVictim c2 a := by
    unfold missVictim
    rw [hpol, hsidx, hfifo, hsel, hassoc, lruVictim_shift]
  cases hf2 : (selectedSet c2 a).findIdx?
      (fun l => l.valid && l.tag == code_tag c2.num_sets a) with
  | some way =>
    have hf1 : (selectedSet c1 a).findIdx?
        (fun l => l.valid && l.tag == code_tag c1.num_sets a) = some way := by
      rw [hfind, hf2]
    rw [access_cache_hit hf1, access_cache_hit hf2]
    constructor
    · show Outcome.mk true (code_set_index c1.num_sets a) way none = _
      rw [hsidx]
    · refine ⟨hns, hassoc, hpol, ?_, ?_, hfifo⟩
      · show c1.access_counter + 1 = c2.access_counter + 1 + k
        omega
      · show modifyIdx c1.cache_array (code_set_index c1.num_sets a)
            (fun s => modifyIdx s way (fun l => { l with last_used := c1.access_counter + 1 })) =
          (modifyIdx c2.cache_array (code_set_index c2.num_sets a)
            (fun s => modifyIdx s way
              (fun l => { l with last_used := c2.access_counter + 1 }))).map
            (fun s => s.map (shiftLine k))
        rw [harr, hsidx, hcnt]
        refine modifyIdx_map c2.cache_array _ _ _ _ (fun s => ?_)
        refine modifyIdx_map s _ (shiftLine k) _ _ (fun x => ?_)
        show ({ shiftLine k x with last_used := c2.access_counter + k + 1 } : CacheLine) =
          shiftLine k { x with last_used := c2.access_counter + 1 }
        exact shiftLine_set_lu k c2.access_counter x
  | none =>
    have hf1 : (selectedSet c1 a).findIdx?
        (fun l => l.valid && l.tag == code_tag c1.num_sets a) = none := by
      rw [hfind, hf2]
    have hvic : (selectedSet c1 a).getD (missVictim c2 a) invalidLine =
        shiftLine k ((selectedSet c2 a).getD (missVictim c2 a) invalidLine) := by
      rw [hsel, getD_map_shiftLine]
    rw [access_cache_miss hf1, access_cache_miss hf2]
    constructor
    · show Outcome.mk false (code_set_index c1.num_sets a) (missVictim c1 a) _ = _
      rw [hsidx, hmv, hvic]
      rw [shiftLine_valid, shiftLine_tag]
    · refine ⟨hns, hassoc, hpol, ?_, ?_, ?_⟩
      · show c1.access_counter + 1 = c2.access_counter + 1 + k
        omega
      · show modifyIdx c1.cache_array (code_set_index c1.num_sets a)
            (fun s => modifyIdx s (missVictim c1 a)
              (fun _ => ⟨true, code_tag c1.num_sets a, c1.access_counter + 1⟩)) =
          (modifyIdx c2.cache_array (code_set_index c2.num_sets a)
            (fun s => modifyIdx s (missVictim c2 a)
              (fun _ => ⟨true, code_tag c2.num_sets a, c2.access_counter + 1⟩))).map
            (fun s => s.map (shiftLine k))
        rw [harr, hsidx, hmv, htag, hcnt]
        refine modifyIdx_map c2.cache_array _ _ _ _ (fun s => ?_)
        refine modifyIdx_map s _ (shiftLine k) _ _ (fun x => ?_)
        exact shiftLine_new_line k c2.access_counter (code_tag c2.num_sets a)
      · show (if c1.replacement_policy = "FIFO" then
            modifyIdx c1.fifo_idx (code_set_index c1.num_sets a)
              (fun i => (i + 1) % c1.associativity)
          else c1.fifo_idx) = _
        simp only [hpol, hsidx, hfifo, hassoc]

theorem runTrace_shift {k : Nat} {c1 c2 : CacheSimulator} (trace : List Nat)
    (h : Rshift k c1 c2) :
    (runTrace c1 trace).1 = (runTrace c2 trace).1 ∧
      Rshift k (runTrace c1 trace).2 (runTrace c2 trace).2 := by
  induction trace generalizing c1 c2 with
  | nil => exact ⟨rfl, h⟩
  | cons a rest ih =>
    obtain ⟨ho, hs⟩ := access_shift a h
    obtain ⟨ho2, hs2⟩ := ih hs
    rw [runTrace_cons, runTrace_cons]
    exact ⟨by rw [ho, ho2], hs2⟩

theorem init_reset_shift {cs bs as : Nat} {pol : String} {c0 : CacheSimulator}
    (hnew : CacheSimulator.new cs bs as pol = Except.ok c0) (warmup : List Nat) :
    Rshift ((runTrace c0 warmup).2.access_counter)
      ((runTrace c0 warmup).2.init_cache) c0 := by
  obtain ⟨hns, has, hlen, hflen, hslen, -, -⟩ := runTrace_inv warmup (new_ok_inv hnew)
  rcases runTrace_fields c0 warmup with ⟨-, -, f3, f4, -, f6⟩
  rcases new_ok_facts hnew with ⟨-, -, hassoc0, -, hcnt0, harr0, hfifo0, -, -, -⟩
  refine ⟨f6, f3, f4, ?_, ?_, ?_⟩
  · show (runTrace c0 warmup).2.access_counter =
      c0.access_counter + (runTrace c0 warmup).2.access_counter
    rw [hcnt0]
    omega
  · show (runTrace c0 warmup).2.cache_array.map (fun s => s.map (fun _ => invalidLine)) =
      c0.cache_array.map (fun s => s.map (shiftLine (runTrace c0 warmup).2.access_counter))
    rw [harr0, List.map_replicate, List.map_replicate]
    have hshift : shiftLine (runTrace c0 warmup).2.access_counter invalidLine = invalidLine := rfl
    rw [hshift]
    rw [List.eq_replicate_iff]
    refine ⟨?_, ?_⟩
    · rw [List.length_map, hlen, f6]
    · intro b hb
      rcases List.mem_map.mp hb with ⟨s, hs, rfl⟩
      rw [List.map_const', hslen s hs, f3, hassoc0]
  · show (runTrace c0 warmup).2.fifo_idx.map (fun _ => 0) = c0.fifo_idx
    rw [hfifo0, List.map_const', hflen, f6]

/-- C6: for a fixed configuration and policy, feeding the same finite
address sequence to a freshly constructed cache and to the same cache after
any amount of use followed by init_cache (which does not reset the global
access counter) yields identical outcome sequences: hit flag, set index,
way, eviction occurrence and evicted tag all coincide access by access. -/
theorem c6_replay_deterministic (cs bs as : Nat) (pol : String) (c0 : CacheSimulator)
    (warmup trace : List Nat)
    (hnew : CacheSimulator.new cs bs as pol = Except.ok c0) :
    (runTrace ((runTrace c0 warmup).2.init_cache) trace).1 = (runTrace c0 trace).1 :=
  (runTrace_shift trace (init_reset_shift hnew warmup)).1

theorem c6_replay_witness :
    (runTrace ((runTrace demoLRU defaultTrace).2.init_cache) defaultTrace).1 =
      (runTrace demoLRU defaultTrace).1 :=
  c6_replay_deterministic 64 16 2 "LRU" demoLRU defaultTrace defaultTrace demoLRU_new

theorem c7_reset_witness :
    demoFIFO.init_cache.access_counter = demoFIFO.access_counter ∧
      demoFIFO.init_cache.stats = demoFIFO.stats :=
  ⟨(c7_reset_frame demoFIFO).2.2.2.2.1, (c7_reset_frame demoFIFO).2.2.2.2.2.1⟩
